import Mathlib

/-
Verification of the EventFrame event routing engine: the frontend `EventBus`
(frontend/src/core/EventBus.ts) and the `WebSocketBridge`
(frontend/src/core/WebSocketBridge.ts).

The embedding models:
  - events as handed to listeners (`IEvent`): name, payload, and the
    `metadata.source` provenance tag;
  - listener registry state: the `listeners` Map, the `wildcardListeners`
    array, the middleware array, the bounded `eventHistory`;
  - JavaScript string pattern operations (`endsWith`, `startsWith`,
    `slice(0, -1)`) on character lists;
  - `Array.prototype.sort` with comparator `(a, b) => b.priority - a.priority`,
    which is a stable sort (ES2019), as a stable insertion sort;
  - listener outcomes (throw / succeed) as an oracle `beh : Nat → EventObj →
    Bool` over listener identities, and middleware as functions returning
    `Except Unit EventObj` (`.error` models a thrown transform).
-/

namespace EventFrame

/-- An event as seen by listeners (`IEvent` in EventBus.ts): `name`, an opaque
payload (abstracted to `Nat`), and the `metadata.source` entry, the only
metadata field the engine inspects (`none` models absent metadata/source). -/
structure EventObj where
  name : String
  data : Nat
  source : Option String
deriving DecidableEq, Repr

/-- One entry of a listener bucket (`ListenerEntry` in EventBus.ts): the
listener function is abstracted to its reference identity `id` (JS compares
listeners with `!==`), plus `priority` and `once`. -/
structure ListenerEntry where
  id : Nat
  priority : Int
  once : Bool
deriving DecidableEq, Repr

/-- The mutable state of an `EventBus` instance: `listeners` models the
`Map<string, ListenerEntry[]>` (a total function with default `[]`, matching
`this.listeners.get(name) || []`), plus `wildcardListeners`, the middleware
chain, the event history and its bound. -/
structure BusState where
  listeners : String → List ListenerEntry
  wildcard : List ListenerEntry
  middleware : List (EventObj → Except Unit EventObj)
  history : List EventObj
  maxHistorySize : Nat

/-- JavaScript `name.startsWith(prefix)` on the event-name strings: the
prefix's characters are a prefix of the name's characters. -/
def strStartsWith (s t : String) : Bool := t.data.isPrefixOf s.data

/-- JavaScript `pattern.endsWith(t)`: the characters of `t` are a suffix of
the pattern's characters. -/
def strEndsWith (s t : String) : Bool := t.data.isSuffixOf s.data

/-- JavaScript `pattern.slice(0, -1)`: the pattern without its last
character. -/
def strDropRight1 (s : String) : String := ⟨s.data.dropLast⟩

/-- Stable descending insertion: places `e` before the first element whose
priority is not greater than `e`'s. Inserting the earliest element of a list
into the stably sorted remainder with this function keeps it ahead of later
equal-priority elements. -/
def insertDesc (e : ListenerEntry) : List ListenerEntry → List ListenerEntry
  | [] => [e]
  | y :: ys => if y.priority ≤ e.priority then e :: y :: ys else y :: insertDesc e ys

/-- The model of `listeners.sort((a, b) => b.priority - a.priority)`:
`Array.prototype.sort` is a stable sort (ES2019), and this comparator orders
by priority descending, so the call is extensionally the stable descending
insertion sort. -/
def sortDesc (l : List ListenerEntry) : List ListenerEntry :=
  l.foldr insertDesc []

/-- Point update of the bucket map, modelling `this.listeners.set(name, b)`. -/
def updateBucket (f : String → List ListenerEntry) (name : String)
    (b : List ListenerEntry) : String → List ListenerEntry :=
  fun n => if n = name then b else f n

/-- `EventBus.on(eventName, listener, {priority, once})`: a `"*"` subscription
goes to the wildcard bucket, any other to that name's bucket; the bucket is
pushed to and re-sorted by priority descending. -/
def onSub (s : BusState) (eventName : String) (e : ListenerEntry) : BusState :=
  if eventName = "*" then
    { s with wildcard := sortDesc (s.wildcard ++ [e]) }
  else
    { s with listeners :=
        updateBucket s.listeners eventName (sortDesc (s.listeners eventName ++ [e])) }

/-- `EventBus.off(eventName, listener)`: filters out every entry holding that
listener (identity `lid`) from the wildcard bucket when `eventName` is `"*"`,
else from that name's bucket. -/
def offSub (s : BusState) (eventName : String) (lid : Nat) : BusState :=
  if eventName = "*" then
    { s with wildcard := s.wildcard.filter (fun e => e.id != lid) }
  else
    { s with listeners :=
        updateBucket s.listeners eventName ((s.listeners eventName).filter (fun e => e.id != lid)) }

/-- The middleware loop of `EventBus.emit`: `for (const middleware of
this.middleware) processedEvent = middleware(processedEvent)`. A transform
that throws (`.error`) propagates immediately. -/
def applyMws : List (EventObj → Except Unit EventObj) → EventObj → Except Unit EventObj
  | [], ev => .ok ev
  | m :: ms, ev =>
    match m ev with
    | .ok ev2 => applyMws ms ev2
    | .error err => .error err

/-- The history update of `EventBus.addToHistory`: push the event, then if the
length exceeds `maxHistorySize`, `shift()` the oldest entry off the front. -/
def histStep (maxSize : Nat) (l : List EventObj) (ev : EventObj) : List EventObj :=
  if maxSize < (l ++ [ev]).length then (l ++ [ev]).drop 1 else l ++ [ev]

/-- `EventBus.addToHistory(event)` acting on the bus state. -/
def addToHistory (s : BusState) (ev : EventObj) : BusState :=
  { s with history := histStep s.maxHistorySize s.history ev }

/-- `EventBus.getHistory(limit?)`: with a positive `limit`, `slice(-limit)`
(the last `limit` entries, oldest first); with no limit — or `limit = 0`,
which is falsy in JavaScript — a copy of the whole history. -/
def getHistory (s : BusState) (limit : Option Nat) : List EventObj :=
  match limit with
  | some l => if l = 0 then s.history else s.history.drop (s.history.length - l)
  | none => s.history

/-- `EventBus.emit(event)`: applies the middleware chain (a throw rejects the
returned promise — `.error` — with nothing else happening), records the
processed event in the history, snapshots the listener sequence as wildcard
bucket followed by the exact-name bucket, invokes every entry (the invocation
sequence is the second component), and removes each `once` entry whose own
invocation succeeded — in the source the `this.off(processedEvent.name,
entry.listener)` call sits after the `await` inside the `try`, so a throwing
listener jumps to `catch` and is not removed. `beh e.id pe = true` means that
listener's invocation succeeds. -/
def emit (beh : Nat → EventObj → Bool) (s : BusState) (ev : EventObj) :
    Except Unit BusState × List ListenerEntry :=
  match applyMws s.middleware ev with
  | .error err => (.error err, [])
  | .ok pe =>
    let s1 := addToHistory s pe
    let entries := s1.wildcard ++ s1.listeners pe.name
    let s2 := entries.foldl
      (fun st e => if e.once && beh e.id pe then offSub st pe.name e.id else st) s1
    (.ok s2, entries)

/-- The bus state once an `emit` call has settled; a middleware throw leaves
the state untouched (the throw happens before the history append). -/
def afterEmit (beh : Nat → EventObj → Bool) (s : BusState) (ev : EventObj) : BusState :=
  match (emit beh s ev).1 with
  | .ok s2 => s2
  | .error _ => s

/-- Modelled from the spec: the event log bound is configurable (`EventLog`:
"N configurable, default 100"); the configuration lives in the backend's
`config.yaml` (`event_system: max_history`), whose loader is not under `src/`.
The frontend `new EventBus()` fixes the bound via its field initializers:
empty listener map, empty wildcard bucket, no middleware, empty history. -/
def mkBus (maxSize : Nat) : BusState :=
  { listeners := fun _ => []
    wildcard := []
    middleware := []
    history := []
    maxHistorySize := maxSize }

/-- A freshly constructed frontend `EventBus`: `maxHistorySize = 100`. -/
def initBus : BusState := mkBus 100

/-- A sequence of settled `emit` calls (each applied to the state left by the
previous one; a rejected emit leaves the state unchanged). -/
def emitFold (beh : Nat → EventObj → Bool) (s : BusState) (evs : List EventObj) : BusState :=
  evs.foldl (fun st ev => afterEmit beh st ev) s

/-- The contents of one listener bucket after a sequence of `on` registrations
into it: each registration pushes and re-sorts (stable, priority descending). -/
def registerAll (regs : List ListenerEntry) : List ListenerEntry :=
  regs.foldl (fun b e => sortDesc (b ++ [e])) []

/-- The bridge's filter policy (`BridgeOptions.allowedEvents` /
`blockedEvents` in WebSocketBridge.ts). -/
structure BridgeOptions where
  allowedEvents : List String
  blockedEvents : List String
deriving DecidableEq, Repr

/-- The constructor defaults of `WebSocketBridge` for `allowedEvents` and
`blockedEvents`. -/
def defaultBridgeOptions : BridgeOptions :=
  { allowedEvents := ["user.*", "order.*", "notification.*", "public.*"]
    blockedEvents := ["private.*", "system.*", "admin.*", "auth.*"] }

/-- One pattern test as performed inside both loops of
`WebSocketBridge.isEventAllowed`: a pattern ending in `*` matches any event
name starting with the pattern minus the marker (`slice(0, -1)`); any other
pattern matches only by string equality. -/
def matchesPattern (pattern eventName : String) : Bool :=
  if strEndsWith pattern "*" then strStartsWith eventName (strDropRight1 pattern)
  else eventName == pattern

/-- `WebSocketBridge.isEventAllowed(eventName)`: the blacklist loop returns
`false` on the first blocked pattern that matches; otherwise the whitelist
loop returns `true` on the first allowed pattern that matches; otherwise
`false`. First-match early return over a list is `List.any`. -/
def isEventAllowed (opts : BridgeOptions) (eventName : String) : Bool :=
  if opts.blockedEvents.any (fun b => matchesPattern b eventName) then false
  else opts.allowedEvents.any (fun a => matchesPattern a eventName)

/-- The decision taken by the listener registered in
`WebSocketBridge.setupLocalEventSync` for one observed event: skip when
`event.metadata?.source === 'backend'`; skip when `isEventAllowed` rejects the
name; otherwise send over the transport exactly when the socket is
connected. -/
def relaySends (opts : BridgeOptions) (connected : Bool) (ev : EventObj) : Bool :=
  if ev.source = some "backend" then false
  else if !isEventAllowed opts ev.name then false
  else connected

/-- The event constructed by the bridge's `socket.on('event', ...)` inbound
handler: the received metadata is spread and then `source: 'backend'` is
written, so every inbound frame carries the provenance tag `"backend"`
whatever the frame contained. -/
def inboundEvent (name : String) (d : Nat) : EventObj :=
  { name := name, data := d, source := some "backend" }

/-- The priority the bridge passes when subscribing its outbound relay
listener: `{ priority: -100 }`. -/
def bridgePriority : Int := -100

/-- The bridge's outbound relay subscription entry (identity `bid`, not a
`once` subscription). -/
def bridgeEntry (bid : Nat) : ListenerEntry :=
  { id := bid, priority := bridgePriority, once := false }

/-- `WebSocketBridge.setupLocalEventSync`: subscribes the relay listener on
the match-all topic of the local bus at priority `-100`. -/
def setupLocalEventSync (s : BusState) (bid : Nat) : BusState :=
  onSub s "*" (bridgeEntry bid)

/-- Listener-outcome oracle where every invocation succeeds. -/
def behOk : Nat → EventObj → Bool := fun _ _ => true

/-- Listener-outcome oracle where every invocation throws. -/
def behFail : Nat → EventObj → Bool := fun _ _ => false

/-- A middleware transform that throws on every event. -/
def throwMw : EventObj → Except Unit EventObj := fun _ => .error ()

theorem mem_insertDesc {a e : ListenerEntry} {l : List ListenerEntry} :
    a ∈ insertDesc e l ↔ a = e ∨ a ∈ l := by
  induction l with
  | nil => simp [insertDesc]
  | cons y ys ih =>
    by_cases h : y.priority ≤ e.priority
    · simp [insertDesc, h]
    · simp [insertDesc, h, ih]
      tauto

theorem insertDesc_perm (e : ListenerEntry) (l : List ListenerEntry) :
    List.Perm (insertDesc e l) (e :: l) := by
  induction l with
  | nil => simp [insertDesc]
  | cons y ys ih =>
    by_cases h : y.priority ≤ e.priority
    · simp [insertDesc, h]
    · simp only [insertDesc, if_neg h]
      exact (ih.cons y).trans (List.Perm.swap e y ys)

theorem sortDesc_perm (l : List ListenerEntry) : List.Perm (sortDesc l) l := by
  induction l with
  | nil => simp [sortDesc]
  | cons x xs ih => exact (insertDesc_perm x (sortDesc xs)).trans (ih.cons x)

theorem pairwise_insertDesc {e : ListenerEntry} {l : List ListenerEntry}
    (h : l.Pairwise (fun a b => b.priority ≤ a.priority)) :
    (insertDesc e l).Pairwise (fun a b => b.priority ≤ a.priority) := by
  induction l with
  | nil => simp [insertDesc]
  | cons y ys ih =>
    rcases List.pairwise_cons.mp h with ⟨hy, hys⟩
    by_cases hc : y.priority ≤ e.priority
    · simp only [insertDesc, if_pos hc]
      refine List.pairwise_cons.mpr ⟨?_, h⟩
      intro b hb
      rcases List.mem_cons.mp hb with rfl | hb2
      · exact hc
      · exact le_trans (hy b hb2) hc
    · simp only [insertDesc, if_neg hc]
      refine List.pairwise_cons.mpr ⟨?_, ih hys⟩
      intro b hb
      rcases mem_insertDesc.mp hb with rfl | hb2
      · exact le_of_not_le hc
      · exact hy b hb2

theorem sortDesc_pairwise (l : List ListenerEntry) :
    (sortDesc l).Pairwise (fun a b => b.priority ≤ a.priority) := by
  induction l with
  | nil => simp [sortDesc]
  | cons x xs ih => exact pairwise_insertDesc ih

theorem filter_insertDesc (p : Int) (e : ListenerEntry) (l : List ListenerEntry) :
    (insertDesc e l).filter (fun x => x.priority == p) =
      if e.priority = p then e :: l.filter (fun x => x.priority == p)
      else l.filter (fun x => x.priority == p) := by
  induction l with
  | nil => by_cases he : e.priority = p <;> simp [insertDesc, he]
  | cons y ys ih =>
    by_cases hc : y.priority ≤ e.priority
    · simp only [insertDesc, if_pos hc]
      by_cases he : e.priority = p <;> simp [List.filter_cons, he]
    · simp only [insertDesc, if_neg hc, List.filter_cons, ih]
      by_cases he : e.priority = p
      · have hy : ¬ y.priority = p := by
          intro hyp
          exact hc (le_of_eq (hyp.trans he.symm))
        simp [he, hy]
      · simp [he]

theorem filter_sortDesc (p : Int) (l : List ListenerEntry) :
    (sortDesc l).filter (fun x => x.priority == p) = l.filter (fun x => x.priority == p) := by
  induction l with
  | nil => rfl
  | cons x xs ih =>
    show (insertDesc x (sortDesc xs)).filter _ = _
    rw [filter_insertDesc]
    by_cases he : x.priority = p <;> simp [he, ih, List.filter_cons]

theorem registerFold_pairwise (regs : List ListenerEntry) (acc : List ListenerEntry)
    (hacc : acc.Pairwise (fun a b => b.priority ≤ a.priority)) :
    (regs.foldl (fun b e => sortDesc (b ++ [e])) acc).Pairwise
      (fun a b => b.priority ≤ a.priority) := by
  induction regs generalizing acc with
  | nil => exact hacc
  | cons e regs ih => exact ih _ (sortDesc_pairwise _)

theorem registerFold_filter (p : Int) (regs : List ListenerEntry) (acc : List ListenerEntry) :
    (regs.foldl (fun b e => sortDesc (b ++ [e])) acc).filter (fun x => x.priority == p) =
      acc.filter (fun x => x.priority == p) ++ regs.filter (fun x => x.priority == p) := by
  induction regs generalizing acc with
  | nil => simp
  | cons e regs ih =>
    rw [List.foldl_cons, ih, filter_sortDesc, List.filter_append, List.filter_cons]
    by_cases he : e.priority = p <;> simp [he]

theorem registerFold_perm (regs : List ListenerEntry) (acc : List ListenerEntry) :
    List.Perm (regs.foldl (fun b e => sortDesc (b ++ [e])) acc) (acc ++ regs) := by
  induction regs generalizing acc with
  | nil => simp
  | cons e regs ih =>
    refine (ih _).trans ?_
    have h1 : List.Perm (sortDesc (acc ++ [e]) ++ regs) ((acc ++ [e]) ++ regs) :=
      (sortDesc_perm _).append_right regs
    refine h1.trans ?_
    simp

theorem regFold_state (T : String) (hT : T ≠ "*") (regs : List ListenerEntry) (s : BusState) :
    (regs.foldl (fun st e => onSub st T e) s).listeners T =
        regs.foldl (fun b e => sortDesc (b ++ [e])) (s.listeners T) ∧
      (regs.foldl (fun st e => onSub st T e) s).wildcard = s.wildcard ∧
      (regs.foldl (fun st e => onSub st T e) s).middleware = s.middleware := by
  induction regs generalizing s with
  | nil => exact ⟨rfl, rfl, rfl⟩
  | cons e regs ih =>
    have h1 := ih (onSub s T e)
    simp only [List.foldl_cons]
    refine ⟨?_, ?_, ?_⟩
    · rw [h1.1]
      congr 1
      simp [onSub, hT, updateBucket]
    · rw [h1.2.1]
      simp [onSub, hT]
    · rw [h1.2.2]
      simp [onSub, hT]

theorem insertDesc_append_last {x b : ListenerEntry} (hxb : b.priority < x.priority)
    (m : List ListenerEntry) : insertDesc x (m ++ [b]) = insertDesc x m ++ [b] := by
  induction m with
  | nil => simp [insertDesc, le_of_lt hxb]
  | cons y m ih =>
    by_cases hc : y.priority ≤ x.priority <;> simp [insertDesc, hc, ih]

theorem sortDesc_append_last {b : ListenerEntry} (l : List ListenerEntry)
    (hb : ∀ y ∈ l, b.priority < y.priority) : sortDesc (l ++ [b]) = sortDesc l ++ [b] := by
  induction l with
  | nil => rfl
  | cons x l ih =>
    show insertDesc x (sortDesc (l ++ [b])) = insertDesc x (sortDesc l) ++ [b]
    rw [ih (fun y hy => hb y (List.mem_cons_of_mem x hy))]
    exact insertDesc_append_last (hb x (List.mem_cons_self x l)) _

theorem histFold_bound (N : Nat) (evs : List EventObj) :
    ∀ l : List EventObj, l.length ≤ N →
      evs.foldl (histStep N) l = (l ++ evs).drop ((l ++ evs).length - N) := by
  induction evs with
  | nil =>
    intro l hl
    simp [Nat.sub_eq_zero_of_le hl]
  | cons e evs ih =>
    intro l hl
    rw [List.foldl_cons]
    by_cases hc : N < (l ++ [e]).length
    · have hstep : histStep N l e = (l ++ [e]).drop 1 := by
        rw [histStep, if_pos hc]
      have hle : ((l ++ [e]).drop 1).length ≤ N := by
        simp only [List.length_drop, List.length_append, List.length_singleton]
        omega
      rw [hstep, ih _ hle]
      have key : (l ++ [e]).drop 1 ++ evs = (l ++ e :: evs).drop 1 := by
        cases l <;> simp
      rw [key, List.drop_drop]
      have hLe : (l ++ [e]).length = l.length + 1 := by simp
      rw [hLe] at hc
      have hdl : ((l ++ e :: evs).drop 1).length = l.length + evs.length := by
        simp
      have hLc : (l ++ e :: evs).length = l.length + evs.length + 1 := by
        simp
        omega
      rw [hdl, hLc]
      have harith : 1 + (l.length + evs.length - N) = l.length + evs.length + 1 - N := by
        omega
      rw [harith]
    · have hstep : histStep N l e = l ++ [e] := by
        rw [histStep, if_neg hc]
      have hLe : (l ++ [e]).length = l.length + 1 := by simp
      rw [hLe] at hc
      have hle : (l ++ [e]).length ≤ N := by rw [hLe]; omega
      rw [hstep, ih _ hle]
      have key : (l ++ [e]) ++ evs = l ++ e :: evs := by simp
      rw [key]

theorem emitFold_history (beh : Nat → EventObj → Bool) (N : Nat) (evs : List EventObj) :
    ∀ l : List EventObj,
      emitFold beh { mkBus N with history := l } evs =
        { mkBus N with history := evs.foldl (histStep N) l } := by
  induction evs with
  | nil => intro l; rfl
  | cons e evs ih =>
    intro l
    have hstep : afterEmit beh { mkBus N with history := l } e =
        { mkBus N with history := histStep N l e } := rfl
    simp only [emitFold, List.foldl_cons]
    show emitFold beh (afterEmit beh { mkBus N with history := l } e) evs = _
    rw [hstep, ih (histStep N l e)]

theorem offFold_wildcard (pe : EventObj) (hne : pe.name ≠ "*")
    (beh : Nat → EventObj → Bool) :
    ∀ (entries : List ListenerEntry) (st : BusState),
      (entries.foldl
          (fun st2 e => if e.once && beh e.id pe then offSub st2 pe.name e.id else st2)
          st).wildcard = st.wildcard := by
  intro entries
  induction entries with
  | nil => intro st; rfl
  | cons e entries ih =>
    intro st
    rw [List.foldl_cons]
    rw [ih]
    by_cases hc : (e.once && beh e.id pe) = true
    · simp [hc, offSub, hne]
    · simp [hc]

theorem emit_ok_eq (beh : Nat → EventObj → Bool) (s : BusState) (ev pe : EventObj)
    (h : applyMws s.middleware ev = .ok pe) :
    emit beh s ev =
      (.ok ((s.wildcard ++ s.listeners pe.name).foldl
          (fun st e => if e.once && beh e.id pe then offSub st pe.name e.id else st)
          (addToHistory s pe)),
        s.wildcard ++ s.listeners pe.name) := by
  unfold emit
  rw [h]
  rfl

theorem emit_error_eq (beh : Nat → EventObj → Bool) (s : BusState) (ev : EventObj)
    (err : Unit) (h : applyMws s.middleware ev = .error err) :
    emit beh s ev = (.error err, []) := by
  unfold emit
  rw [h]

theorem afterEmit_ok (beh : Nat → EventObj → Bool) (s : BusState) (ev pe : EventObj)
    (h : applyMws s.middleware ev = .ok pe) :
    afterEmit beh s ev =
      (s.wildcard ++ s.listeners pe.name).foldl
        (fun st e => if e.once && beh e.id pe then offSub st pe.name e.id else st)
        (addToHistory s pe) := by
  rw [afterEmit, emit_ok_eq beh s ev pe h]

theorem afterEmit_single (T : String) (hT : T ≠ "*") (i : Nat) (p : Int) (d : Nat)
    (src : Option String) (beh : Nat → EventObj → Bool) :
    (afterEmit beh (onSub initBus T ⟨i, p, true⟩) ⟨T, d, src⟩).listeners T =
        (if beh i ⟨T, d, src⟩ then [] else [⟨i, p, true⟩]) ∧
      (afterEmit beh (onSub initBus T ⟨i, p, true⟩) ⟨T, d, src⟩).wildcard = [] ∧
      (afterEmit beh (onSub initBus T ⟨i, p, true⟩) ⟨T, d, src⟩).middleware = [] := by
  by_cases hb : beh i ⟨T, d, src⟩ = true <;>
    simp [afterEmit, emit, applyMws, addToHistory, onSub, offSub, updateBucket, hT, hb,
      initBus, mkBus, sortDesc, insertDesc, histStep]

/-- C2: `isEventAllowed` returns `true` exactly when some allow pattern
matches and no block pattern matches; any block match forces `false`
regardless of allow matches, and no allow match forces `false`
(default-deny). A pattern ending in the wildcard marker matches exactly the
names extending its literal prefix; a pattern without the marker matches only
that exact name. -/
theorem isEventAllowed_spec (opts : BridgeOptions) (name : String) :
    (isEventAllowed opts name = true ↔
      ((∃ a ∈ opts.allowedEvents, matchesPattern a name = true) ∧
        ∀ b ∈ opts.blockedEvents, matchesPattern b name = false)) ∧
    ((∃ b ∈ opts.blockedEvents, matchesPattern b name = true) →
      isEventAllowed opts name = false) ∧
    ((∀ a ∈ opts.allowedEvents, matchesPattern a name = false) →
      isEventAllowed opts name = false) ∧
    (∀ pat : String, strEndsWith pat "*" = true →
      (matchesPattern pat name = true ↔
        ∃ rest : List Char, name.data = (strDropRight1 pat).data ++ rest)) ∧
    (∀ pat : String, strEndsWith pat "*" = false →
      (matchesPattern pat name = true ↔ name = pat)) := by
  have hpat : ∀ pat : String,
      (strEndsWith pat "*" = true →
        (matchesPattern pat name = true ↔
          ∃ rest : List Char, name.data = (strDropRight1 pat).data ++ rest)) ∧
      (strEndsWith pat "*" = false → (matchesPattern pat name = true ↔ name = pat)) := by
    intro pat
    constructor
    · intro hw
      rw [matchesPattern, if_pos hw]
      rw [strStartsWith, List.isPrefixOf_iff_prefix]
      constructor
      · rintro ⟨t, ht⟩
        exact ⟨t, ht.symm⟩
      · rintro ⟨t, ht⟩
        exact ⟨t, ht.symm⟩
    · intro hw
      rw [matchesPattern, if_neg (by rw [hw]; exact Bool.false_ne_true)]
      exact beq_iff_eq
  refine ⟨?_, ?_, ?_, fun pat => (hpat pat).1, fun pat => (hpat pat).2⟩
  · rw [isEventAllowed]
    by_cases hb : opts.blockedEvents.any (fun b => matchesPattern b name) = true
    · rw [if_pos hb]
      simp only [List.any_eq_true] at hb
      obtain ⟨b, hbmem, hbm⟩ := hb
      constructor
      · intro hfalse
        exact absurd hfalse Bool.false_ne_true
      · rintro ⟨-, hall⟩
        rw [hall b hbmem] at hbm
        exact absurd hbm Bool.false_ne_true
    · rw [if_neg hb]
      simp only [List.any_eq_true] at hb ⊢
      push_neg at hb
      constructor
      · intro hany
        refine ⟨hany, fun b hbm => ?_⟩
        have := hb b hbm
        simp only [Bool.not_eq_true] at this
        exact this
      · rintro ⟨hany, -⟩
        exact hany
  · intro hblock
    rw [isEventAllowed, if_pos (List.any_eq_true.mpr hblock)]
  · intro hallow
    rw [isEventAllowed]
    by_cases hb : opts.blockedEvents.any (fun b => matchesPattern b name) = true
    · rw [if_pos hb]
    · rw [if_neg hb]
      rw [List.any_eq_false]
      intro a ham
      rw [hallow a ham]
      exact Bool.false_ne_true

/-- Witness for C2 at the spec's block-precedence example: with
`allow = ["*"]` and `block = ["admin.*"]`, `"admin.delete"` is rejected and
`"user.created"` is admitted. -/
theorem isEventAllowed_spec_witness :
    isEventAllowed ⟨["*"], ["admin.*"]⟩ "admin.delete" = false ∧
    isEventAllowed ⟨["*"], ["admin.*"]⟩ "user.created" = true := by
  refine ⟨(isEventAllowed_spec ⟨["*"], ["admin.*"]⟩ "admin.delete").2.1
      ⟨"admin.*", by decide, by decide⟩,
    ((isEventAllowed_spec ⟨["*"], ["admin.*"]⟩ "user.created").1).mpr
      ⟨⟨"*", by decide, by decide⟩, by decide⟩⟩

/-- C3: for a topic `T`, after any sequence of registrations into `T`'s
bucket, `emit` of an event named `T` invokes exactly that bucket, which is the
registration sequence re-ordered by priority descending (`Pairwise`), with
ties kept in registration order (the entries of each priority appear in their
original relative order), and nothing added or dropped (a permutation). -/
theorem emit_priority_order (T : String) (regs : List ListenerEntry) (d : Nat)
    (src : Option String) (beh : Nat → EventObj → Bool) (hT : T ≠ "*") :
    (emit beh (regs.foldl (fun st e => onSub st T e) initBus) ⟨T, d, src⟩).2 =
        registerAll regs ∧
      (registerAll regs).Pairwise (fun a b => b.priority ≤ a.priority) ∧
      (∀ p : Int, (registerAll regs).filter (fun x => x.priority == p) =
        regs.filter (fun x => x.priority == p)) ∧
      List.Perm (registerAll regs) regs := by
  obtain ⟨hbuck, hwild, hmw⟩ := regFold_state T hT regs initBus
  refine ⟨?_, registerFold_pairwise regs [] List.Pairwise.nil,
    fun p => by simpa using registerFold_filter p regs [],
    by simpa using registerFold_perm regs []⟩
  have hmw2 : (regs.foldl (fun st e => onSub st T e) initBus).middleware = [] := hmw
  have hok : applyMws (regs.foldl (fun st e => onSub st T e) initBus).middleware
      ⟨T, d, src⟩ = .ok ⟨T, d, src⟩ := by rw [hmw2]; rfl
  rw [emit_ok_eq beh _ _ _ hok]
  show (regs.foldl (fun st e => onSub st T e) initBus).wildcard ++
      (regs.foldl (fun st e => onSub st T e) initBus).listeners T = registerAll regs
  rw [hwild, hbuck]
  show [] ++ regs.foldl (fun b e => sortDesc (b ++ [e])) [] = registerAll regs
  rw [List.nil_append, registerAll]

/-- Witness for C3: priorities [5, 0, 10] registered in that order are
invoked as [10, 5, 0]. -/
theorem emit_priority_order_witness :
    (emit behOk
        ([⟨0, 5, false⟩, ⟨1, 0, false⟩, ⟨2, 10, false⟩].foldl
          (fun st e => onSub st "user.created" e) initBus) ⟨"user.created", 0, none⟩).2 =
      registerAll [⟨0, 5, false⟩, ⟨1, 0, false⟩, ⟨2, 10, false⟩] ∧
    registerAll [⟨0, 5, false⟩, ⟨1, 0, false⟩, ⟨2, 10, false⟩] =
      [⟨2, 10, false⟩, ⟨0, 5, false⟩, ⟨1, 0, false⟩] :=
  ⟨(emit_priority_order "user.created" [⟨0, 5, false⟩, ⟨1, 0, false⟩, ⟨2, 10, false⟩]
      0 none behOk (by decide)).1, by decide⟩

/-- C4: when the middleware pipeline succeeds, `emit` resolves (is `.ok`) for
every combination of listener outcomes, and the sequence of invoked listeners
is the full resolved sequence, identical under any two outcome oracles — a
throwing listener never prevents a sibling from being invoked. -/
theorem emit_listener_isolation (s : BusState) (ev pe : EventObj)
    (beh beh2 : Nat → EventObj → Bool) (h : applyMws s.middleware ev = .ok pe) :
    (emit beh s ev).1.isOk = true ∧
      (emit beh s ev).2 = s.wildcard ++ s.listeners pe.name ∧
      (emit beh s ev).2 = (emit beh2 s ev).2 := by
  rw [emit_ok_eq beh s ev pe h, emit_ok_eq beh2 s ev pe h]
  exact ⟨rfl, rfl, rfl⟩

/-- Witness for C4: with a high-priority and a low-priority listener on
`"y"`, an emit where every listener throws still resolves and invokes the
same two listeners as an emit where every listener succeeds. -/
theorem emit_listener_isolation_witness :
    (emit behFail (onSub (onSub initBus "y" ⟨0, 5, false⟩) "y" ⟨1, 0, false⟩)
        ⟨"y", 0, none⟩).1.isOk = true ∧
    (emit behFail (onSub (onSub initBus "y" ⟨0, 5, false⟩) "y" ⟨1, 0, false⟩)
        ⟨"y", 0, none⟩).2 =
      (emit behOk (onSub (onSub initBus "y" ⟨0, 5, false⟩) "y" ⟨1, 0, false⟩)
        ⟨"y", 0, none⟩).2 := by
  have h := emit_listener_isolation
    (onSub (onSub initBus "y" ⟨0, 5, false⟩) "y" ⟨1, 0, false⟩)
    ⟨"y", 0, none⟩ ⟨"y", 0, none⟩ behFail behOk rfl
  exact ⟨h.1, h.2.2⟩

/-- C6: the sequence `emit` invokes is the wildcard bucket followed by the
exact-topic bucket (no merge across buckets); in particular a match-all
listener W is invoked before a topic-specific listener S whatever their
priorities. -/
theorem emit_bucket_concat (s : BusState) (ev pe : EventObj)
    (beh : Nat → EventObj → Bool) (T : String) (W S : ListenerEntry) (hT : T ≠ "*")
    (h : applyMws s.middleware ev = .ok pe) :
    (emit beh s ev).2 = s.wildcard ++ s.listeners pe.name ∧
      (emit beh (onSub (onSub initBus "*" W) T S) ⟨T, 0, none⟩).2 = [W, S] := by
  constructor
  · rw [emit_ok_eq beh s ev pe h]
  · have h2 : applyMws (onSub (onSub initBus "*" W) T S).middleware ⟨T, 0, none⟩ =
        .ok ⟨T, 0, none⟩ := by
      simp [onSub, hT, initBus, mkBus, applyMws]
    rw [emit_ok_eq beh _ _ _ h2]
    show (onSub (onSub initBus "*" W) T S).wildcard ++
        (onSub (onSub initBus "*" W) T S).listeners T = [W, S]
    simp [onSub, hT, updateBucket, initBus, mkBus, sortDesc, insertDesc]

/-- Witness for C6: W with priority 0 on `"*"`, S with priority 10 on
`"user.created"`: W is still invoked first. -/
theorem emit_bucket_concat_witness :
    (emit behOk (onSub (onSub initBus "*" ⟨0, 0, false⟩) "user.created" ⟨1, 10, false⟩)
        ⟨"user.created", 0, none⟩).2 = [⟨0, 0, false⟩, ⟨1, 10, false⟩] :=
  (emit_bucket_concat initBus ⟨"user.created", 0, none⟩ ⟨"user.created", 0, none⟩ behOk
    "user.created" ⟨0, 0, false⟩ ⟨1, 10, false⟩ (by decide) rfl).2

/-- C8: a throwing middleware transform aborts that `emit` call: the returned
promise rejects with the transform's error, no listener is invoked, and the
bus state is untouched — in contrast to listener errors (see the isolation
theorem), which never reject the emit. -/
theorem middleware_throw_aborts (s : BusState) (ev : EventObj)
    (beh : Nat → EventObj → Bool) (err : Unit)
    (h : applyMws s.middleware ev = .error err) :
    (emit beh s ev).1 = .error err ∧ (emit beh s ev).2 = [] ∧
      afterEmit beh s ev = s := by
  rw [afterEmit, emit_error_eq beh s ev err h]
  exact ⟨rfl, rfl, rfl⟩

/-- Witness for C8: a bus whose only middleware throws rejects the emit and
invokes nothing. -/
theorem middleware_throw_aborts_witness :
    (emit behOk { initBus with middleware := [throwMw] } ⟨"user.created", 1, none⟩).1 =
      .error () ∧
    (emit behOk { initBus with middleware := [throwMw] } ⟨"user.created", 1, none⟩).2 = [] := by
  have h := middleware_throw_aborts { initBus with middleware := [throwMw] }
    ⟨"user.created", 1, none⟩ behOk () rfl
  exact ⟨h.1, h.2.1⟩

/-- C5: the event log is a bounded FIFO. After any sequence of settled emit
calls on a bus with bound `N` (spec-modelled configurability; the frontend
constructor fixes `N = 100`, the default), the history — also as returned by
`getHistory()` — is exactly the last `N` emitted events in order, oldest
first (older entries having been evicted one at a time from the front), so
its size never exceeds `N`. -/
theorem history_bounded_fifo (N : Nat) (evs : List EventObj)
    (beh : Nat → EventObj → Bool) :
    (emitFold beh (mkBus N) evs).history = evs.drop (evs.length - N) ∧
      (emitFold beh (mkBus N) evs).history.length ≤ N ∧
      getHistory (emitFold beh (mkBus N) evs) none = evs.drop (evs.length - N) ∧
      initBus.maxHistorySize = 100 := by
  have h0 : emitFold beh (mkBus N) evs =
      { mkBus N with history := evs.foldl (histStep N) [] } :=
    emitFold_history beh N evs []
  have h1 : evs.foldl (histStep N) [] = evs.drop (evs.length - N) := by
    have h2 := histFold_bound N evs [] (by simp)
    simpa using h2
  have hh : (emitFold beh (mkBus N) evs).history = evs.drop (evs.length - N) := by
    rw [h0]
    exact h1
  refine ⟨hh, ?_, ?_, rfl⟩
  · rw [hh, List.length_drop]
    omega
  · show (emitFold beh (mkBus N) evs).history = evs.drop (evs.length - N)
    exact hh

/-- C7 counterexample: a `once` subscription on `"x"` whose first invocation
throws is NOT removed — in the source the `this.off` call sits after the
`await` inside the `try`, so the throw jumps to `catch` and skips it — and a
second `emit("x", …)` invokes the same listener again, contradicting removal
"regardless of whether that invocation succeeded or threw". -/
theorem once_throwing_fires_twice_cex :
    (afterEmit behFail (onSub initBus "x" ⟨0, 0, true⟩) ⟨"x", 0, none⟩).listeners "x" =
      [⟨0, 0, true⟩] ∧
    (emit behFail (afterEmit behFail (onSub initBus "x" ⟨0, 0, true⟩) ⟨"x", 0, none⟩)
        ⟨"x", 0, none⟩).2 = [⟨0, 0, true⟩] := by
  decide

/-- C7 amended: a `once` subscription is removed after its own invocation
exactly when that invocation succeeds: after a successful first invocation
the topic's bucket is empty and a second emit invokes zero copies, while
after a throwing first invocation the subscription remains registered and the
second emit invokes it again. -/
theorem once_removed_iff_success (T : String) (i : Nat) (p : Int) (d : Nat)
    (src : Option String) (beh : Nat → EventObj → Bool) (hT : T ≠ "*") :
    (beh i ⟨T, d, src⟩ = true →
      (afterEmit beh (onSub initBus T ⟨i, p, true⟩) ⟨T, d, src⟩).listeners T = [] ∧
      (emit beh (afterEmit beh (onSub initBus T ⟨i, p, true⟩) ⟨T, d, src⟩)
        ⟨T, d, src⟩).2 = []) ∧
    (beh i ⟨T, d, src⟩ = false →
      (afterEmit beh (onSub initBus T ⟨i, p, true⟩) ⟨T, d, src⟩).listeners T =
        [⟨i, p, true⟩] ∧
      (emit beh (afterEmit beh (onSub initBus T ⟨i, p, true⟩) ⟨T, d, src⟩)
        ⟨T, d, src⟩).2 = [⟨i, p, true⟩]) := by
  obtain ⟨hl, hw, hm⟩ := afterEmit_single T hT i p d src beh
  have hok2 : applyMws
      (afterEmit beh (onSub initBus T ⟨i, p, true⟩) ⟨T, d, src⟩).middleware
      ⟨T, d, src⟩ = .ok ⟨T, d, src⟩ := by rw [hm]; rfl
  have h2 := emit_ok_eq beh _ _ _ hok2
  constructor
  · intro hb
    rw [hb] at hl
    simp only [if_pos] at hl
    refine ⟨hl, ?_⟩
    rw [h2]
    show (afterEmit beh (onSub initBus T ⟨i, p, true⟩) ⟨T, d, src⟩).wildcard ++
        (afterEmit beh (onSub initBus T ⟨i, p, true⟩) ⟨T, d, src⟩).listeners T = []
    rw [hw, hl]
    rfl
  · intro hb
    rw [hb] at hl
    simp only [Bool.false_eq_true, if_false] at hl
    refine ⟨hl, ?_⟩
    rw [h2]
    show (afterEmit beh (onSub initBus T ⟨i, p, true⟩) ⟨T, d, src⟩).wildcard ++
        (afterEmit beh (onSub initBus T ⟨i, p, true⟩) ⟨T, d, src⟩).listeners T =
      [⟨i, p, true⟩]
    rw [hw, hl]
    rfl

/-- Witness for C7 amended: on topic `"x"`, with a throwing listener the
subscription survives the first emit; with a succeeding listener it is
removed and the second emit invokes zero copies. -/
theorem once_removed_iff_success_witness :
    ((afterEmit behFail (onSub initBus "x" ⟨0, 0, true⟩) ⟨"x", 0, none⟩).listeners "x" =
        [⟨0, 0, true⟩] ∧
      (emit behFail (afterEmit behFail (onSub initBus "x" ⟨0, 0, true⟩) ⟨"x", 0, none⟩)
        ⟨"x", 0, none⟩).2 = [⟨0, 0, true⟩]) ∧
    ((afterEmit behOk (onSub initBus "x" ⟨0, 0, true⟩) ⟨"x", 0, none⟩).listeners "x" = [] ∧
      (emit behOk (afterEmit behOk (onSub initBus "x" ⟨0, 0, true⟩) ⟨"x", 0, none⟩)
        ⟨"x", 0, none⟩).2 = []) :=
  ⟨(once_removed_iff_success "x" 0 0 0 none behFail (by decide)).2 rfl,
    (once_removed_iff_success "x" 0 0 0 none behOk (by decide)).1 rfl⟩

/-- C1 counterexample: the provenance tag the code applies and checks is
`"backend"`, not `"remote"`. An event carrying `metadata.source = "remote"`
passes the loop check (`source === 'backend'` is false), matches the allow
pattern `user.*`, and with a connected socket IS sent over the transport. -/
theorem relay_remote_tag_cex :
    relaySends defaultBridgeOptions true ⟨"user.created", 0, some "remote"⟩ = true := by
  decide

/-- C1 amended: the provenance tag is `"backend"`: every inbound frame is
tagged `metadata.source = "backend"`, and the outbound relay listener never
sends an event whose `metadata.source` equals `"backend"`, whatever the
filter policy, connection state, or event name. -/
theorem relay_skips_backend_tag (opts : BridgeOptions) (connected : Bool)
    (ev : EventObj) (h : ev.source = some "backend") :
    relaySends opts connected ev = false ∧
      ∀ (n : String) (d : Nat), (inboundEvent n d).source = some "backend" := by
  refine ⟨?_, fun n d => rfl⟩
  rw [relaySends, if_pos h]

/-- Witness for C1 amended: an allow-matching event tagged `"backend"` is not
relayed even on a connected socket. -/
theorem relay_skips_backend_tag_witness :
    relaySends defaultBridgeOptions true ⟨"user.created", 0, some "backend"⟩ = false :=
  (relay_skips_backend_tag defaultBridgeOptions true
    ⟨"user.created", 0, some "backend"⟩ rfl).1

/-- C9 counterexample: the bridge relay listener (id 99, priority −100,
subscribed on `"*"`) is invoked FIRST — before the topic-specific listener
(id 1, priority 0) on `"user.created"` — because `emit` runs the wildcard
bucket before the exact-topic bucket; it is not invoked "only after every
other local listener". -/
theorem bridge_runs_before_specific_cex :
    (emit behOk (onSub (setupLocalEventSync initBus 99) "user.created" ⟨1, 0, false⟩)
        ⟨"user.created", 0, none⟩).2 =
      [⟨99, -100, false⟩, ⟨1, 0, false⟩] := by
  decide

/-- C9 amended: within the wildcard bucket the bridge's −100 subscription is
placed last whenever every other wildcard listener has priority above −100,
so the relay listener observes an event only after every other wildcard
listener; but the invocation sequence of any emit puts it BEFORE all
topic-specific listeners (bucket concatenation). -/
theorem bridge_relay_placement (s : BusState) (bid : Nat)
    (hw : ∀ y ∈ s.wildcard, bridgePriority < y.priority) :
    (setupLocalEventSync s bid).wildcard = sortDesc s.wildcard ++ [bridgeEntry bid] ∧
      ∀ (beh : Nat → EventObj → Bool) (ev pe : EventObj),
        applyMws s.middleware ev = .ok pe →
          (emit beh (setupLocalEventSync s bid) ev).2 =
            (sortDesc s.wildcard ++ [bridgeEntry bid]) ++ s.listeners pe.name := by
  have h1 : (setupLocalEventSync s bid).wildcard =
      sortDesc s.wildcard ++ [bridgeEntry bid] := by
    show (onSub s "*" (bridgeEntry bid)).wildcard = _
    rw [onSub, if_pos rfl]
    exact sortDesc_append_last s.wildcard hw
  refine ⟨h1, fun beh ev pe h => ?_⟩
  have hm : (setupLocalEventSync s bid).middleware = s.middleware := rfl
  have hl : (setupLocalEventSync s bid).listeners = s.listeners := rfl
  have hok : applyMws (setupLocalEventSync s bid).middleware ev = .ok pe := by
    rw [hm]
    exact h
  rw [emit_ok_eq beh _ _ _ hok]
  show (setupLocalEventSync s bid).wildcard ++
      (setupLocalEventSync s bid).listeners pe.name = _
  rw [h1, hl]

/-- Witness for C9 amended: one wildcard listener of priority 0; after
`setupLocalEventSync` the wildcard bucket is that listener followed by the
bridge entry. -/
theorem bridge_relay_placement_witness :
    (setupLocalEventSync (onSub initBus "*" ⟨7, 0, false⟩) 99).wildcard =
        sortDesc (onSub initBus "*" ⟨7, 0, false⟩).wildcard ++ [bridgeEntry 99] ∧
      sortDesc (onSub initBus "*" ⟨7, 0, false⟩).wildcard ++ [bridgeEntry 99] =
        [⟨7, 0, false⟩, ⟨99, -100, false⟩] :=
  ⟨(bridge_relay_placement (onSub initBus "*" ⟨7, 0, false⟩) 99 (by decide)).1,
    by decide⟩

/-- C10 counterexample: emitting an event literally named `"*"` does remove a
succeeding `once` wildcard subscription: `emit` calls
`off(processedEvent.name, listener)` with name `"*"`, which takes `off`'s
wildcard branch and filters the wildcard bucket, so a subsequent emit invokes
nothing. -/
theorem once_wildcard_star_emit_cex :
    (afterEmit behOk (onSub initBus "*" ⟨0, 0, true⟩) ⟨"*", 0, none⟩).wildcard = [] ∧
    (emit behOk (afterEmit behOk (onSub initBus "*" ⟨0, 0, true⟩) ⟨"*", 0, none⟩)
        ⟨"user.created", 0, none⟩).2 = [] := by
  decide

/-- C10 amended: for any emission whose processed event name is not `"*"`,
`emit` never touches the wildcard bucket — the `once` removals call `off`
with the event's concrete name, reaching only that name's bucket — so every
wildcard subscription (`once` included) survives and is part of every such
emit's invocation sequence. -/
theorem once_wildcard_survives (s : BusState) (ev pe : EventObj)
    (beh : Nat → EventObj → Bool) (h : applyMws s.middleware ev = .ok pe)
    (hne : pe.name ≠ "*") :
    (afterEmit beh s ev).wildcard = s.wildcard ∧
      ∀ w ∈ s.wildcard, w ∈ (emit beh s ev).2 := by
  constructor
  · rw [afterEmit_ok beh s ev pe h]
    rw [offFold_wildcard pe hne beh]
    rfl
  · intro w hwmem
    rw [emit_ok_eq beh s ev pe h]
    exact List.mem_append_left _ hwmem

/-- Witness for C10 amended: a `once` wildcard subscription survives an emit
of `"user.created"`. -/
theorem once_wildcard_survives_witness :
    (afterEmit behOk (onSub initBus "*" ⟨0, 0, true⟩) ⟨"user.created", 0, none⟩).wildcard =
        (onSub initBus "*" ⟨0, 0, true⟩).wildcard ∧
      (onSub initBus "*" ⟨0, 0, true⟩).wildcard = [⟨0, 0, true⟩] :=
  ⟨(once_wildcard_survives (onSub initBus "*" ⟨0, 0, true⟩) ⟨"user.created", 0, none⟩
      ⟨"user.created", 0, none⟩ behOk rfl (by decide)).1, by decide⟩

end EventFrame

